import Mathlib

/-!
# Verification of the curl-wrapper response parser

This file embeds the response-parsing core of the repository — the function
`CurlResponse::new` in `src/lib.rs` — and proves the specified properties
about it.

The Rust function is

```
pub fn new(stdout: Vec<u8>) -> Self {
    let raw_response = String::from_utf8_lossy(&stdout);
    let blocks: Vec<&str> = raw_response.split("\r\n\r\n").collect();
    let re = Regex::new(r"HTTP/.*?\s(\d{3})").unwrap();
    let mut status_code = 0;
    let mut headers = Vec::new();
    let mut body = String::new();
    for block in &blocks {
        let capture = re.captures(block);
        if capture.is_none() { continue; }
        let code = capture.unwrap().get(1).unwrap();
        if code.as_str().starts_with("3") { continue; }
        status_code = code.as_str().parse().unwrap();
        headers = block.lines().skip(1)
            .take_while(|line| !line.is_empty())
            .map(|line| line.trim().to_string()).collect();
        body = blocks.last().unwrap().trim().to_string();
        break;
    }
    CurlResponse { status_code, headers, body }
}
```

The embedding works on `List Char` for text and `List Nat` for raw bytes.
Fallible steps (the `unwrap`s that can actually panic, namely the
`parse::<u16>()` of the captured code and the `blocks.last()` access) are
modelled with `Option`: a `none` result of `CurlResponse.new` corresponds to
a Rust panic.

Points of the Rust semantics embedded faithfully:
* `String::from_utf8_lossy` — UTF-8 decoding with U+FFFD substitution,
  following Rust's maximal-subpart resynchronisation (`utf8DecodeLossy`);
* `str::split("\r\n\r\n")` — split on each non-overlapping occurrence of the
  four-character separator, leftmost first (`splitSep`);
* the regex `HTTP/.*?\s(\d{3})` of the `regex` crate with its default Unicode
  classes: `.` matches anything but `'\n'`, `\s` is `White_Space`, `\d` is the
  Unicode `Nd` category, the match is leftmost-first and `.*?` is lazy
  (`findCode`);
* `str::starts_with("3")` on the capture — its first character is `'3'`;
* `str::parse::<u16>()` — succeeds exactly on ASCII digits, here always three
  of them, with the 16-bit overflow check kept explicit (`parseU16`);
* `str::lines` — split after every `'\n'`, stripping a final `"\n"` or
  `"\r\n"` from each produced line (`rustLines`);
* `str::trim` — remove `White_Space` characters from both ends (`trimChars`).
-/

namespace CurlWrapper

/-- Unicode `White_Space` code points: the character class of Rust's
`char::is_whitespace` (used by `str::trim`) and of `\s` in the `regex` crate. -/
def isWs (c : Char) : Bool :=
  decide (c.toNat = 0x20 ∨ (0x9 ≤ c.toNat ∧ c.toNat ≤ 0xD) ∨ c.toNat = 0x85 ∨
    c.toNat = 0xA0 ∨ c.toNat = 0x1680 ∨ (0x2000 ≤ c.toNat ∧ c.toNat ≤ 0x200A) ∨
    c.toNat = 0x2028 ∨ c.toNat = 0x2029 ∨ c.toNat = 0x202F ∨ c.toNat = 0x205F ∨
    c.toNat = 0x3000)

/-- The code-point ranges of the Unicode 15.0 `Nd` (decimal digit)
category: the character class of `\d` in the `regex` crate (Unicode mode is
the default, so `\d` is not restricted to ASCII). -/
def ndRanges : List (Nat × Nat) :=
  [(0x30, 0x39), (0x660, 0x669), (0x6F0, 0x6F9), (0x7C0, 0x7C9),
   (0x966, 0x96F), (0x9E6, 0x9EF), (0xA66, 0xA6F), (0xAE6, 0xAEF),
   (0xB66, 0xB6F), (0xBE6, 0xBEF), (0xC66, 0xC6F), (0xCE6, 0xCEF),
   (0xD66, 0xD6F), (0xDE6, 0xDEF), (0xE50, 0xE59), (0xED0, 0xED9),
   (0xF20, 0xF29), (0x1040, 0x1049), (0x1090, 0x1099), (0x17E0, 0x17E9),
   (0x1810, 0x1819), (0x1946, 0x194F), (0x19D0, 0x19D9), (0x1A80, 0x1A89),
   (0x1A90, 0x1A99), (0x1B50, 0x1B59), (0x1BB0, 0x1BB9), (0x1C40, 0x1C49),
   (0x1C50, 0x1C59), (0xA620, 0xA629), (0xA8D0, 0xA8D9), (0xA900, 0xA909),
   (0xA9D0, 0xA9D9), (0xA9F0, 0xA9F9), (0xAA50, 0xAA59), (0xABF0, 0xABF9),
   (0xFF10, 0xFF19), (0x104A0, 0x104A9), (0x10D30, 0x10D39),
   (0x11066, 0x1106F), (0x110F0, 0x110F9), (0x11136, 0x1113F),
   (0x111D0, 0x111D9), (0x112F0, 0x112F9), (0x11450, 0x11459),
   (0x114D0, 0x114D9), (0x11650, 0x11659), (0x116C0, 0x116C9),
   (0x11730, 0x11739), (0x118E0, 0x118E9), (0x11950, 0x11959),
   (0x11C50, 0x11C59), (0x11D50, 0x11D59), (0x11DA0, 0x11DA9),
   (0x11F50, 0x11F59),
   (0x16A60, 0x16A69), (0x16AC0, 0x16AC9), (0x16B50, 0x16B59),
   (0x1D7CE, 0x1D7FF), (0x1E140, 0x1E149), (0x1E2F0, 0x1E2F9),
   (0x1E4F0, 0x1E4F9), (0x1E950, 0x1E959), (0x1FBF0, 0x1FBF9)]

/-- `\d` of the regex `HTTP/.*?\s(\d{3})`: a Unicode decimal digit. -/
def isNd (c : Char) : Bool :=
  ndRanges.any fun p => decide (p.1 ≤ c.toNat ∧ c.toNat ≤ p.2)

/-- The replacement character U+FFFD substituted by `String::from_utf8_lossy`. -/
def replChar : Char := Char.ofNat 0xFFFD

/-- A UTF-8 continuation byte. -/
def isContByte (b : Nat) : Bool := decide (0x80 ≤ b ∧ b ≤ 0xBF)

/-- Admissible first continuation byte of a three-byte UTF-8 sequence
(the narrowed ranges after `0xE0`/`0xED` exclude overlong forms and
surrogates, as Rust's validator does). -/
def cont3First (b0 b1 : Nat) : Bool :=
  if b0 = 0xE0 then decide (0xA0 ≤ b1 ∧ b1 ≤ 0xBF)
  else if b0 = 0xED then decide (0x80 ≤ b1 ∧ b1 ≤ 0x9F)
  else isContByte b1

/-- Admissible first continuation byte of a four-byte UTF-8 sequence. -/
def cont4First (b0 b1 : Nat) : Bool :=
  if b0 = 0xF0 then decide (0x90 ≤ b1 ∧ b1 ≤ 0xBF)
  else if b0 = 0xF4 then decide (0x80 ≤ b1 ∧ b1 ≤ 0x8F)
  else isContByte b1

/-- Worker of `String::from_utf8_lossy`: decode UTF-8, replacing each
maximal invalid subpart by U+FFFD and resynchronising at the offending byte,
exactly as Rust's `Utf8Error`-driven chunking does.  The fuel argument only
makes the recursion structural; each step consumes at least one byte, so
fuel equal to the byte count (as supplied by `utf8DecodeLossy`) is never
exhausted. -/
def utf8Go : Nat → List Nat → List Char
  | 0, _ => []
  | _, [] => []
  | fuel + 1, b0 :: rest =>
    if b0 < 0x80 then Char.ofNat b0 :: utf8Go fuel rest
    else if b0 < 0xC2 then replChar :: utf8Go fuel rest
    else if b0 < 0xE0 then
      match rest with
      | [] => [replChar]
      | b1 :: rest1 =>
        if isContByte b1 then
          Char.ofNat ((b0 - 0xC0) * 0x40 + (b1 - 0x80)) :: utf8Go fuel rest1
        else replChar :: utf8Go fuel rest
    else if b0 < 0xF0 then
      match rest with
      | [] => [replChar]
      | b1 :: rest1 =>
        if cont3First b0 b1 then
          match rest1 with
          | [] => [replChar]
          | b2 :: rest2 =>
            if isContByte b2 then
              Char.ofNat ((b0 - 0xE0) * 0x1000 + (b1 - 0x80) * 0x40 + (b2 - 0x80)) ::
                utf8Go fuel rest2
            else replChar :: utf8Go fuel rest1
        else replChar :: utf8Go fuel rest
    else if b0 < 0xF5 then
      match rest with
      | [] => [replChar]
      | b1 :: rest1 =>
        if cont4First b0 b1 then
          match rest1 with
          | [] => [replChar]
          | b2 :: rest2 =>
            if isContByte b2 then
              match rest2 with
              | [] => [replChar]
              | b3 :: rest3 =>
                if isContByte b3 then
                  Char.ofNat ((b0 - 0xF0) * 0x40000 + (b1 - 0x80) * 0x1000 +
                      (b2 - 0x80) * 0x40 + (b3 - 0x80)) :: utf8Go fuel rest3
                else replChar :: utf8Go fuel rest2
            else replChar :: utf8Go fuel rest1
        else replChar :: utf8Go fuel rest
    else replChar :: utf8Go fuel rest

/-- `String::from_utf8_lossy` on the raw byte buffer. -/
def utf8DecodeLossy (bytes : List Nat) : List Char := utf8Go bytes.length bytes

/-- The block separator `"\r\n\r\n"` of `raw_response.split("\r\n\r\n")`. -/
def sepList : List Char := ['\r', '\n', '\r', '\n']

/-- `str::split("\r\n\r\n")`: split at every non-overlapping occurrence of
the separator, scanning left to right; always returns at least one piece
(`[""]` on the empty string), exactly like Rust's `split`. -/
def splitSep : List Char → List (List Char)
  | [] => [[]]
  | c :: rest =>
    if sepList.isPrefixOf (c :: rest) then
      match rest with
      | _ :: _ :: _ :: rest3 => [] :: splitSep rest3
      | _ => [[]]
    else
      match splitSep rest with
      | [] => [[c]]
      | p :: ps => (c :: p) :: ps

/-- The literal `"HTTP/"` of the status-line regex. -/
def httpLit : List Char := ['H', 'T', 'T', 'P', '/']

/-- Does the list start with `"HTTP/"`? -/
def isHttpStart (s : List Char) : Bool := httpLit.isPrefixOf s

/-- Attempt of `\d{3}` at the current position: the next three characters,
when they are all Unicode decimal digits. -/
def sniffDigits : List Char → Option (Char × Char × Char)
  | d1 :: d2 :: d3 :: _ =>
    if isNd d1 && isNd d2 && isNd d3 then some (d1, d2, d3) else none
  | _ => none

/-- The part `.*?\s(\d{3})` of the regex, applied after the `"HTTP/"`
literal: search the nearest position reachable through the lazy `.*?`
(which cannot cross `'\n'`, since `.` does not match a newline) at which a
`White_Space` character is followed by three Unicode digits; return the
captured digits. -/
def scanGap : List Char → Option (Char × Char × Char)
  | [] => none
  | c :: rest =>
    match (if isWs c then sniffDigits rest else none) with
    | some r => some r
    | none => if c = '\n' then none else scanGap rest

/-- `re.captures(block)` for `re = HTTP/.*?\s(\d{3})`, reduced to what the
code consumes: the text of the first capture group of the leftmost-first
match, if any.  The scan tries every position as a start of the `"HTTP/"`
literal, leftmost first. -/
def findCode : List Char → Option (Char × Char × Char)
  | [] => none
  | c :: rest =>
    match (if isHttpStart (c :: rest) then scanGap (rest.drop 4) else none) with
    | some r => some r
    | none => findCode rest

/-- ASCII `'0'`–`'9'`, the only digits accepted by Rust's
`str::parse::<u16>()`. -/
def isAsciiDigit (c : Char) : Bool := decide (48 ≤ c.toNat ∧ c.toNat ≤ 57)

/-- Numeric value of an ASCII digit. -/
def digitVal (c : Char) : Nat := c.toNat - 48

/-- `code.as_str().parse::<u16>()` on the three captured characters:
succeeds iff all three are ASCII digits and the value fits in `u16`
(the latter check can never fire on three digits); `none` is the
`unwrap` panic. -/
def parseU16 (d1 d2 d3 : Char) : Option Nat :=
  if isAsciiDigit d1 && isAsciiDigit d2 && isAsciiDigit d3 then
    if 65535 < 100 * digitVal d1 + 10 * digitVal d2 + digitVal d3 then none
    else some (100 * digitVal d1 + 10 * digitVal d2 + digitVal d3)
  else none

/-- `str::split_inclusive('\n')`: cut after every `'\n'`, keeping the
terminator with its line; the empty string yields no pieces. -/
def splitInclNL : List Char → List (List Char)
  | [] => []
  | c :: rest =>
    if c = '\n' then [c] :: splitInclNL rest
    else
      match splitInclNL rest with
      | [] => [[c]]
      | p :: ps => (c :: p) :: ps

/-- The per-line map of `str::lines`: strip one final `"\n"`, and a `'\r'`
directly before it. -/
def lineMap (l : List Char) : List Char :=
  match l.getLast? with
  | some '\n' =>
    match l.dropLast.getLast? with
    | some '\r' => l.dropLast.dropLast
    | _ => l.dropLast
  | _ => l

/-- `str::lines` as used on the selected block. -/
def rustLines (s : List Char) : List (List Char) :=
  (splitInclNL s).map lineMap

/-- `str::trim`: remove `White_Space` characters from both ends. -/
def trimChars (l : List Char) : List Char :=
  ((l.dropWhile fun c => isWs c).reverse.dropWhile fun c => isWs c).reverse

/-- The `headers` assignment of the selected block:
`block.lines().skip(1).take_while(|line| !line.is_empty()).map(|line| line.trim().to_string())`. -/
def headersOfBlock (block : List Char) : List (List Char) :=
  (((rustLines block).drop 1).takeWhile fun l => !l.isEmpty).map trimChars

/-- The output structure of the parser (`CurlResponse` in the source,
`ParsedResponse` in the spec).  `status_code` is the `u16` field as a
natural number. -/
structure CurlResponse where
  status_code : Nat
  headers : List (List Char)
  body : List Char
deriving DecidableEq

/-- The `for block in &blocks` loop.  The first argument is the whole block
list (used for `blocks.last()`), the second the blocks still to scan.
`none` models a panic: either `parse::<u16>().unwrap()` on a capture that is
not made of ASCII digits, or `blocks.last().unwrap()` on an empty block
list. -/
def scanBlocks (blocks : List (List Char)) : List (List Char) → Option CurlResponse
  | [] => some ⟨0, [], []⟩
  | block :: rest =>
    match findCode block with
    | none => scanBlocks blocks rest
    | some (d1, d2, d3) =>
      if d1 = '3' then scanBlocks blocks rest
      else
        match parseU16 d1 d2 d3 with
        | none => none
        | some code =>
          match blocks.getLast? with
          | none => none
          | some lastB => some ⟨code, headersOfBlock block, trimChars lastB⟩

/-- The parsing core of `CurlResponse::new` on the decoded text. -/
def parseText (text : List Char) : Option CurlResponse :=
  scanBlocks (splitSep text) (splitSep text)

/-- `CurlResponse::new` on the raw byte buffer.  `none` models a panic. -/
def CurlResponse.new (stdout : List Nat) : Option CurlResponse :=
  parseText (utf8DecodeLossy stdout)

/-- An occurrence of the status-line pattern `HTTP/.*?\s(\d{3})` somewhere
in a text: the `"HTTP/"` literal, then a gap free of `'\n'` (matched by
`.*?`, as `.` does not match newlines), then a `White_Space` character and
three Unicode decimal digits. -/
def StatusOccur (s : List Char) : Prop :=
  ∃ u g w d1 d2 d3 v,
    s = u ++ httpLit ++ g ++ w :: d1 :: d2 :: d3 :: v ∧
    (∀ c ∈ g, c ≠ '\n') ∧ isWs w = true ∧
    isNd d1 = true ∧ isNd d2 = true ∧ isNd d3 = true

/-- Helper for concrete inputs: the byte list of an ASCII string. -/
def strBytes (s : String) : List Nat := s.toList.map Char.toNat

/-- Does the text contain an occurrence of the separator `"\r\n\r\n"`?
Used to state the side conditions under which `splitSep` cuts where
expected. -/
def hasSepB : List Char → Bool
  | [] => false
  | c :: rest => sepList.isPrefixOf (c :: rest) || hasSepB rest

/-- Join a list of lines with `"\r\n"`; `mkBlock [l1, l2, l3] =
l1 ++ "\r\n" ++ l2 ++ "\r\n" ++ l3`.  Used to describe the header block of
a well-formed HTTP message in theorem statements. -/
def mkBlock : List (List Char) → List Char
  | [] => []
  | [l] => l
  | l :: ls => l ++ '\r' :: '\n' :: mkBlock ls

/-- A nonempty line containing no CR and no LF — the shape of a status or
header line in a well-formed message. -/
def cleanLine (l : List Char) : Prop :=
  l ≠ [] ∧ ∀ c ∈ l, c ≠ '\r' ∧ c ≠ '\n'

instance (l : List Char) : Decidable (cleanLine l) := by
  unfold cleanLine; infer_instance

/-- Concrete input: a capture whose only status line is a redirect. -/
def c1Input : List Nat := strBytes "HTTP/1.1 301 Moved\r\n\r\nhello"

/-- Concrete input: a status line whose three-digit code has a leading zero. -/
def c2Input : List Nat := strBytes "HTTP/1.1 012 X\r\n\r\nbody"

/-- Concrete input with no status line at all. -/
def c3Input : List Nat := strBytes "hi"

/-- Concrete input: a redirect hop followed by a final 200 message. -/
def c4Input : List Nat :=
  strBytes "HTTP/1.1 301 Moved\r\nLocation: /new\r\n\r\nHTTP/1.1 200 OK\r\nContent-Type: text/plain\r\n\r\nhello"

/-- First (redirect) block of `c4Input`. -/
def c4B1 : List Char := "HTTP/1.1 301 Moved\r\nLocation: /new".toList

/-- Second (final) block of `c4Input`. -/
def c4B2 : List Char := "HTTP/1.1 200 OK\r\nContent-Type: text/plain".toList

/-- Body block of `c4Input`. -/
def c4Body : List Char := "hello".toList

/-- Concrete input: the worked example of the spec. -/
def c5Input : List Nat :=
  strBytes "HTTP/1.1 200 OK\r\nContent-Type: text/html\r\n\r\n<html>Hi</html>"

/-- Status line of `c5Input`. -/
def c5sl : List Char := "HTTP/1.1 200 OK".toList

/-- Header line of `c5Input`. -/
def c5hdr : List Char := "Content-Type: text/html".toList

/-- Body of `c5Input`. -/
def c5body : List Char := "<html>Hi</html>".toList

/-- Concrete input: a header line with surrounding whitespace. -/
def c6Input : List Nat :=
  strBytes "HTTP/1.1 200 OK\r\n  Content-Type: text/html  \r\n\r\nbody"

/-- Concrete input whose status code is written with fullwidth digits
(U+FF12 U+FF10 U+FF10, UTF-8 `EF BC 92 EF BC 90 EF BC 90`): matched by the
Unicode-aware `\d{3}` of the regex but rejected by `parse::<u16>()`. -/
def c7Input : List Nat :=
  strBytes "HTTP/1.1 " ++ [0xEF, 0xBC, 0x92, 0xEF, 0xBC, 0x90, 0xEF, 0xBC, 0x90] ++
    strBytes " OK\r\n\r\nhi"

/-- Concrete input: a plain 200 message. -/
def c8Input : List Nat := strBytes "HTTP/1.1 200 OK\r\n\r\nhi"

/-- Concrete input: a plain 404 message. -/
def c9Input : List Nat := strBytes "HTTP/1.1 404 Not Found\r\n\r\noops"

/-- Concrete input containing no `"\r\n\r\n"` separator at all. -/
def c10Input : List Nat := strBytes "HTTP/1.1 200 OK\r\nX: y\r\nhello"

theorem char_eq_of_toNat {a b : Char} (h : a.toNat = b.toNat) : a = b :=
  Char.ext (UInt32.ext h)

theorem sepPre_iff (s : List Char) :
    sepList.isPrefixOf s = true ↔ ∃ t, s = '\r' :: '\n' :: '\r' :: '\n' :: t := by
  rcases s with _ | ⟨a, _ | ⟨b, _ | ⟨c, _ | ⟨d, t⟩⟩⟩⟩ <;>
    (simp [sepList, List.isPrefixOf]; try aesop)

theorem isHttpStart_iff (s : List Char) :
    isHttpStart s = true ↔ ∃ t, s = 'H' :: 'T' :: 'T' :: 'P' :: '/' :: t := by
  rcases s with _ | ⟨a, _ | ⟨b, _ | ⟨c, _ | ⟨d, _ | ⟨e, t⟩⟩⟩⟩⟩ <;>
    (simp [isHttpStart, httpLit, List.isPrefixOf]; try aesop)

theorem splitSep_cons_eq (c : Char) (rest : List Char) :
    splitSep (c :: rest) =
      if sepList.isPrefixOf (c :: rest) then
        (match rest with
         | _ :: _ :: _ :: rest3 => [] :: splitSep rest3
         | _ => [[]])
      else
        (match splitSep rest with
         | [] => [[c]]
         | p :: ps => (c :: p) :: ps) := by
  rw [splitSep.eq_def]

theorem splitSep_ne_nil (s : List Char) : splitSep s ≠ [] := by
  cases s with
  | nil => decide
  | cons c rest =>
    rw [splitSep_cons_eq]
    split
    · split <;> simp
    · split <;> simp

theorem splitSep_head (s : List Char) :
    ∀ p ps, splitSep s = p :: ps → ∃ y, s = p ++ y := by
  induction s using splitSep.induct with
  | case1 =>
    intro p ps h
    rw [show splitSep [] = [[]] from rfl] at h
    exact ⟨[], by simp [(List.cons.inj h).1.symm]⟩
  | case2 c h1 h2 h3 rest3 hpre ih =>
    intro p ps h
    rw [splitSep_cons_eq, if_pos hpre] at h
    exact ⟨c :: h1 :: h2 :: h3 :: rest3, by simp [(List.cons.inj h.symm).1]⟩
  | case3 c rest hpre hshort =>
    obtain ⟨t, ht⟩ := (sepPre_iff _).mp hpre
    exact absurd (List.cons.inj ht).2 (hshort _ _ _ _)
  | case4 c rest hpre hnil ih =>
    exact absurd hnil (splitSep_ne_nil rest)
  | case5 c rest hpre p' ps' hsplit ih =>
    intro p ps h
    rw [splitSep_cons_eq, if_neg hpre] at h
    simp only [hsplit] at h
    obtain ⟨y, hy⟩ := ih p' ps' hsplit
    refine ⟨y, ?_⟩
    rw [← (List.cons.inj h).1, hy]
    rfl

theorem splitSep_mem_sub (s : List Char) :
    ∀ b ∈ splitSep s, ∃ x y, s = x ++ b ++ y := by
  induction s using splitSep.induct with
  | case1 =>
    intro b hb
    rw [show splitSep [] = [[]] from rfl] at hb
    simp only [List.mem_singleton] at hb
    exact ⟨[], [], by simp [hb]⟩
  | case2 c h1 h2 h3 rest3 hpre ih =>
    intro b hb
    rw [splitSep_cons_eq, if_pos hpre] at hb
    simp only [List.mem_cons] at hb
    rcases hb with rfl | hb
    · exact ⟨[], c :: h1 :: h2 :: h3 :: rest3, by simp⟩
    · obtain ⟨x, y, hxy⟩ := ih b hb
      exact ⟨c :: h1 :: h2 :: h3 :: x, y, by simp [hxy]⟩
  | case3 c rest hpre hshort =>
    obtain ⟨t, ht⟩ := (sepPre_iff _).mp hpre
    exact absurd (List.cons.inj ht).2 (hshort _ _ _ _)
  | case4 c rest hpre hnil ih =>
    exact absurd hnil (splitSep_ne_nil rest)
  | case5 c rest hpre p' ps' hsplit ih =>
    intro b hb
    rw [splitSep_cons_eq, if_neg hpre] at hb
    simp only [hsplit, List.mem_cons] at hb
    rcases hb with hbe | hb
    · obtain ⟨y, hy⟩ := splitSep_head rest p' ps' hsplit
      exact ⟨[], y, by simp [hbe, hy]⟩
    · obtain ⟨x, y, hxy⟩ := ih b (by rw [hsplit]; exact List.mem_cons_of_mem _ hb)
      exact ⟨c :: x, y, by simp [hxy]⟩

theorem hasSepB_append_of_clean (l r : List Char) (h : ∀ c ∈ l, c ≠ '\r') :
    hasSepB (l ++ r) = hasSepB r := by
  induction l with
  | nil => rfl
  | cons c l' ih =>
    have hc : c ≠ '\r' := h c (by simp)
    simp only [List.cons_append, hasSepB, List.append_eq]
    rw [ih fun x hx => h x (by simp [hx])]
    have hp : sepList.isPrefixOf (c :: (l' ++ r)) = false := by
      cases hq : sepList.isPrefixOf (c :: (l' ++ r)) with
      | false => rfl
      | true =>
        obtain ⟨t, ht⟩ := (sepPre_iff _).mp hq
        exact absurd (List.cons.inj ht).1 hc
    rw [hp]
    simp

theorem sepPre_extend (c : Char) (a b : List Char) :
    sepList.isPrefixOf (c :: (a ++ sepList ++ b)) =
      sepList.isPrefixOf (c :: (a ++ ['\r', '\n'])) := by
  rcases a with _ | ⟨x, _ | ⟨y, _ | ⟨z, a3⟩⟩⟩ <;>
    simp [sepList, List.isPrefixOf]

theorem splitSep_append (a b : List Char) (h : hasSepB (a ++ ['\r', '\n']) = false) :
    splitSep (a ++ sepList ++ b) = a :: splitSep b := by
  induction a with
  | nil =>
    show splitSep ('\r' :: '\n' :: '\r' :: '\n' :: b) = [] :: splitSep b
    rw [splitSep_cons_eq, if_pos (by simp [sepList, List.isPrefixOf])]
  | cons c a' ih =>
    simp only [List.cons_append, hasSepB, List.append_eq, Bool.or_eq_false_iff] at h
    have hnp : ¬ sepList.isPrefixOf (c :: (a' ++ sepList ++ b)) = true := by
      rw [sepPre_extend, h.1]
      simp
    have e1 : (c :: a') ++ sepList ++ b = c :: (a' ++ sepList ++ b) := by simp
    rw [e1, splitSep_cons_eq, if_neg hnp, ih h.2]

theorem splitSep_no_sep (s : List Char) (h : hasSepB s = false) : splitSep s = [s] := by
  induction s with
  | nil => rfl
  | cons c rest ih =>
    simp only [hasSepB, Bool.or_eq_false_iff] at h
    rw [splitSep_cons_eq, if_neg (by simp [h.1]), ih h.2]

theorem scanBlocks_all_none (blocks rest : List (List Char))
    (h : ∀ b ∈ rest, findCode b = none) :
    scanBlocks blocks rest = some ⟨0, [], []⟩ := by
  induction rest with
  | nil => rfl
  | cons block rest' ih =>
    simp only [scanBlocks]
    rw [h block (by simp)]
    exact ih fun b hb => h b (by simp [hb])

theorem scanBlocks_cases (blocks : List (List Char)) :
    ∀ rest r, scanBlocks blocks rest = some r →
      r = ⟨0, [], []⟩ ∨
      ∃ b d1 d2 d3 lastB, b ∈ rest ∧ findCode b = some (d1, d2, d3) ∧ d1 ≠ '3' ∧
        parseU16 d1 d2 d3 = some r.status_code ∧ blocks.getLast? = some lastB ∧
        r.headers = headersOfBlock b ∧ r.body = trimChars lastB := by
  intro rest
  induction rest with
  | nil =>
    intro r h
    simp only [scanBlocks, Option.some.injEq] at h
    exact Or.inl h.symm
  | cons block rest' ih =>
    intro r h
    simp only [scanBlocks] at h
    cases hf : findCode block with
    | none =>
      simp only [hf] at h
      rcases ih r h with h0 | ⟨b, d1, d2, d3, lastB, hb, hrest⟩
      · exact Or.inl h0
      · exact Or.inr ⟨b, d1, d2, d3, lastB, List.mem_cons_of_mem _ hb, hrest⟩
    | some t =>
      obtain ⟨d1, d2, d3⟩ := t
      simp only [hf] at h
      by_cases h3 : d1 = '3'
      · rw [if_pos h3] at h
        rcases ih r h with h0 | ⟨b, e1, e2, e3, lastB, hb, hrest⟩
        · exact Or.inl h0
        · exact Or.inr ⟨b, e1, e2, e3, lastB, List.mem_cons_of_mem _ hb, hrest⟩
      · rw [if_neg h3] at h
        cases hp : parseU16 d1 d2 d3 with
        | none => simp only [hp] at h; exact absurd h (by simp)
        | some code =>
          simp only [hp] at h
          cases hl : blocks.getLast? with
          | none => simp only [hl] at h; exact absurd h (by simp)
          | some lastB =>
            simp only [hl] at h
            obtain rfl : (⟨code, headersOfBlock block, trimChars lastB⟩ : CurlResponse) = r :=
              Option.some.inj h
            exact Or.inr ⟨block, d1, d2, d3, lastB, by simp, hf, h3, hp, rfl, rfl, rfl⟩

theorem parseU16_some (d1 d2 d3 : Char) (n : Nat) (h : parseU16 d1 d2 d3 = some n) :
    isAsciiDigit d1 = true ∧ isAsciiDigit d2 = true ∧ isAsciiDigit d3 = true ∧
      n = 100 * digitVal d1 + 10 * digitVal d2 + digitVal d3 := by
  unfold parseU16 at h
  by_cases hd : (isAsciiDigit d1 && isAsciiDigit d2 && isAsciiDigit d3) = true
  · rw [if_pos hd] at h
    simp only [Bool.and_eq_true] at hd
    split at h
    · cases h
    · exact ⟨hd.1.1, hd.1.2, hd.2, (Option.some.inj h).symm⟩
  · rw [if_neg hd] at h
    cases h

theorem parseU16_eq (d1 d2 d3 : Char) (h1 : isAsciiDigit d1 = true)
    (h2 : isAsciiDigit d2 = true) (h3 : isAsciiDigit d3 = true) :
    parseU16 d1 d2 d3 = some (100 * digitVal d1 + 10 * digitVal d2 + digitVal d3) := by
  simp only [isAsciiDigit, decide_eq_true_eq] at h1 h2 h3
  unfold parseU16
  rw [if_pos (by simp [isAsciiDigit]; omega)]
  rw [if_neg (by simp [digitVal]; omega)]

/-- C1 (counterexample): on the input `"HTTP/1.1 301 Moved\r\n\r\nhello"`,
whose only status line is a redirect, the parser returns a response whose
`body` is empty and therefore NOT the trimmed last block (`"hello"`): the
code assigns `body` only when a status block is selected, contradicting the
claim that `body` is set regardless. -/
theorem c1_counterexample :
    ∃ r, CurlResponse.new c1Input = some r ∧
      r.body ≠ trimChars ((splitSep (utf8DecodeLossy c1Input)).getLastD []) :=
  ⟨⟨0, [], []⟩, by decide, by decide⟩

/-- C1 (amended): for every input on which the parser returns, either a
status block was selected and `body` is the trimmed text of the last block
of the CR LF CR LF split, or no status block was selected and then
`status_code` is 0, `headers` is empty and `body` is the EMPTY string (not
the trimmed last block). -/
theorem c1_amended_body (stdout : List Nat) (r : CurlResponse)
    (h : CurlResponse.new stdout = some r) :
    r.body = trimChars ((splitSep (utf8DecodeLossy stdout)).getLastD []) ∨
      (r.status_code = 0 ∧ r.headers = [] ∧ r.body = []) := by
  rcases scanBlocks_cases (splitSep (utf8DecodeLossy stdout))
      (splitSep (utf8DecodeLossy stdout)) r h with
    h0 | ⟨b, d1, d2, d3, lastB, hb, hf, h3, hp, hl, hh, hbody⟩
  · right
    rw [h0]
    exact ⟨rfl, rfl, rfl⟩
  · left
    rw [hbody, List.getLastD_eq_getLast?, hl]
    rfl

/-- Witness for the amended C1 at the concrete redirect-only input. -/
theorem c1_amended_body_wit :
    (⟨0, [], []⟩ : CurlResponse).body =
        trimChars ((splitSep (utf8DecodeLossy c1Input)).getLastD []) ∨
      ((⟨0, [], []⟩ : CurlResponse).status_code = 0 ∧
        (⟨0, [], []⟩ : CurlResponse).headers = [] ∧
        (⟨0, [], []⟩ : CurlResponse).body = []) :=
  c1_amended_body c1Input ⟨0, [], []⟩ (by decide)

/-- C2 (counterexample): on the input `"HTTP/1.1 012 X\r\n\r\nbody"` the
captured three-digit code `"012"` parses to 12, so `status_code` is nonzero
yet below 100: a nonzero status code need not be a 3-digit number in
100–999. -/
theorem c2_counterexample :
    ∃ r, CurlResponse.new c2Input = some r ∧ r.status_code ≠ 0 ∧ r.status_code < 100 :=
  ⟨⟨12, [], "body".toList⟩, by decide, by decide, by decide⟩

/-- C2 (amended): any nonzero `status_code` is at most 999 and never lies in
the redirect range 300–399 (the matched code's first character is not `'3'`),
but it can be below 100 when the matched code has a leading zero. -/
theorem c2_amended_range (stdout : List Nat) (r : CurlResponse)
    (h : CurlResponse.new stdout = some r) (hne : r.status_code ≠ 0) :
    r.status_code ≤ 999 ∧ ¬(300 ≤ r.status_code ∧ r.status_code ≤ 399) := by
  rcases scanBlocks_cases (splitSep (utf8DecodeLossy stdout))
      (splitSep (utf8DecodeLossy stdout)) r h with
    h0 | ⟨b, d1, d2, d3, lastB, hb, hf, h3, hp, hl, hh, hbody⟩
  · rw [h0] at hne
    simp at hne
  · obtain ⟨hd1, hd2, hd3, hv⟩ := parseU16_some _ _ _ _ hp
    simp only [isAsciiDigit, decide_eq_true_eq] at hd1 hd2 hd3
    simp only [digitVal] at hv
    refine ⟨by omega, ?_⟩
    rintro ⟨h300, h399⟩
    have ht : d1.toNat = 51 := by omega
    exact h3 (char_eq_of_toNat (by rw [ht]; decide))

/-- Witness for the amended C2 at the concrete leading-zero input. -/
theorem c2_amended_range_wit :
    (⟨12, [], "body".toList⟩ : CurlResponse).status_code ≤ 999 ∧
      ¬(300 ≤ (⟨12, [], "body".toList⟩ : CurlResponse).status_code ∧
        (⟨12, [], "body".toList⟩ : CurlResponse).status_code ≤ 399) :=
  c2_amended_range c2Input ⟨12, [], "body".toList⟩ (by decide) (by decide)

/-- C6: whenever the parser returns with a selected status block, `headers`
equals that block's lines with the first discarded, taken up to the first
blank line, each trimmed (and when no block was selected, `headers` is
empty). -/
theorem c6_headers_selected (stdout : List Nat) (r : CurlResponse)
    (h : CurlResponse.new stdout = some r) :
    r.headers = [] ∨
      ∃ b d1 d2 d3, b ∈ splitSep (utf8DecodeLossy stdout) ∧
        findCode b = some (d1, d2, d3) ∧ d1 ≠ '3' ∧
        r.headers = (((rustLines b).drop 1).takeWhile fun l => !l.isEmpty).map trimChars := by
  rcases scanBlocks_cases (splitSep (utf8DecodeLossy stdout))
      (splitSep (utf8DecodeLossy stdout)) r h with
    h0 | ⟨b, d1, d2, d3, lastB, hb, hf, h3, hp, hl, hh, hbody⟩
  · left
    rw [h0]
  · right
    exact ⟨b, d1, d2, d3, hb, hf, h3, hh⟩

/-- Witness for C6 at an input whose header line carries surrounding
spaces: the header appears trimmed. -/
theorem c6_headers_selected_wit :
    (⟨200, ["Content-Type: text/html".toList], "body".toList⟩ : CurlResponse).headers = [] ∨
      ∃ b d1 d2 d3, b ∈ splitSep (utf8DecodeLossy c6Input) ∧
        findCode b = some (d1, d2, d3) ∧ d1 ≠ '3' ∧
        (⟨200, ["Content-Type: text/html".toList], "body".toList⟩ : CurlResponse).headers =
          (((rustLines b).drop 1).takeWhile fun l => !l.isEmpty).map trimChars :=
  c6_headers_selected c6Input ⟨200, ["Content-Type: text/html".toList], "body".toList⟩
    (by decide)

/-- C7 (code bug): the parser is NOT total.  On `c7Input`, whose status code
is written with fullwidth digits (Unicode `Nd`, matched by the regex's
`\d{3}`), `str::parse::<u16>()` fails and its `unwrap` panics; the model
returns `none`. -/
theorem c7_parse_panics : CurlResponse.new c7Input = none := by decide

/-- C8: the parser is deterministic — two runs on the same byte buffer that
produce responses produce equal `status_code`, `headers` and `body`. -/
theorem c8_deterministic (stdout : List Nat) (r1 r2 : CurlResponse)
    (h1 : CurlResponse.new stdout = some r1) (h2 : CurlResponse.new stdout = some r2) :
    r1.status_code = r2.status_code ∧ r1.headers = r2.headers ∧ r1.body = r2.body := by
  rw [h1] at h2
  obtain rfl := Option.some.inj h2
  exact ⟨rfl, rfl, rfl⟩

/-- Witness for C8 at a concrete 200 input. -/
theorem c8_deterministic_wit :
    (⟨200, [], "hi".toList⟩ : CurlResponse).status_code =
        (⟨200, [], "hi".toList⟩ : CurlResponse).status_code ∧
      (⟨200, [], "hi".toList⟩ : CurlResponse).headers =
        (⟨200, [], "hi".toList⟩ : CurlResponse).headers ∧
      (⟨200, [], "hi".toList⟩ : CurlResponse).body =
        (⟨200, [], "hi".toList⟩ : CurlResponse).body :=
  c8_deterministic c8Input ⟨200, [], "hi".toList⟩ ⟨200, [], "hi".toList⟩
    (by decide) (by decide)

/-- C9: any returned `status_code` is at most 999 — it is the value of
three decimal digits, so the 16-bit status field cannot overflow. -/
theorem c9_status_le_999 (stdout : List Nat) (r : CurlResponse)
    (h : CurlResponse.new stdout = some r) : r.status_code ≤ 999 := by
  rcases scanBlocks_cases (splitSep (utf8DecodeLossy stdout))
      (splitSep (utf8DecodeLossy stdout)) r h with
    h0 | ⟨b, d1, d2, d3, lastB, hb, hf, h3, hp, hl, hh, hbody⟩
  · rw [h0]
    exact Nat.zero_le 999
  · obtain ⟨hd1, hd2, hd3, hv⟩ := parseU16_some _ _ _ _ hp
    simp only [isAsciiDigit, decide_eq_true_eq] at hd1 hd2 hd3
    simp only [digitVal] at hv
    omega

/-- Witness for C9 at a concrete 404 input. -/
theorem c9_status_le_999_wit :
    (⟨404, [], "oops".toList⟩ : CurlResponse).status_code ≤ 999 :=
  c9_status_le_999 c9Input ⟨404, [], "oops".toList⟩ (by decide)

theorem sniffDigits_sound (t : List Char) (d1 d2 d3 : Char)
    (h : sniffDigits t = some (d1, d2, d3)) :
    ∃ v, t = d1 :: d2 :: d3 :: v ∧ isNd d1 = true ∧ isNd d2 = true ∧ isNd d3 = true := by
  rcases t with _ | ⟨a, _ | ⟨b, _ | ⟨c, v⟩⟩⟩
  · cases h
  · cases h
  · cases h
  · simp only [sniffDigits] at h
    split at h
    case isTrue hnd =>
      simp only [Option.some.injEq, Prod.mk.injEq] at h
      obtain ⟨rfl, rfl, rfl⟩ := h
      simp only [Bool.and_eq_true] at hnd
      exact ⟨v, rfl, hnd.1.1, hnd.1.2, hnd.2⟩
    case isFalse hnd => cases h

theorem scanGap_sound (t : List Char) :
    ∀ d1 d2 d3, scanGap t = some (d1, d2, d3) →
      ∃ g w v, t = g ++ w :: d1 :: d2 :: d3 :: v ∧ (∀ c ∈ g, c ≠ '\n') ∧
        isWs w = true ∧ isNd d1 = true ∧ isNd d2 = true ∧ isNd d3 = true := by
  induction t with
  | nil => intro d1 d2 d3 h; cases h
  | cons c rest ih =>
    intro d1 d2 d3 h
    simp only [scanGap] at h
    cases hfst : (if isWs c then sniffDigits rest else none) with
    | some u =>
      rw [hfst] at h
      obtain rfl := Option.some.inj h
      by_cases hws : isWs c = true
      · rw [if_pos hws] at hfst
        obtain ⟨v, rfl, hn1, hn2, hn3⟩ := sniffDigits_sound rest d1 d2 d3 hfst
        exact ⟨[], c, v, rfl, by simp, hws, hn1, hn2, hn3⟩
      · rw [if_neg hws] at hfst
        cases hfst
    | none =>
      rw [hfst] at h
      by_cases hnl : c = '\n'
      · rw [if_pos hnl] at h
        cases h
      · rw [if_neg hnl] at h
        obtain ⟨g, w, v, rfl, hg, hw, hn1, hn2, hn3⟩ := ih d1 d2 d3 h
        refine ⟨c :: g, w, v, rfl, ?_, hw, hn1, hn2, hn3⟩
        intro x hx
        rcases List.mem_cons.mp hx with rfl | hx
        · exact hnl
        · exact hg x hx

theorem findCode_sound (s : List Char) :
    ∀ d1 d2 d3, findCode s = some (d1, d2, d3) → StatusOccur s := by
  induction s with
  | nil => intro d1 d2 d3 h; cases h
  | cons c rest ih =>
    intro d1 d2 d3 h
    simp only [findCode] at h
    cases hfst : (if isHttpStart (c :: rest) then scanGap (rest.drop 4) else none) with
    | some u =>
      rw [hfst] at h
      obtain rfl := Option.some.inj h
      by_cases hs : isHttpStart (c :: rest) = true
      · rw [if_pos hs] at hfst
        obtain ⟨t, ht⟩ := (isHttpStart_iff _).mp hs
        obtain ⟨rfl, hrest⟩ :
            c = 'H' ∧ rest = 'T' :: 'T' :: 'P' :: '/' :: t := ⟨(List.cons.inj ht).1, (List.cons.inj ht).2⟩
        rw [hrest] at hfst
        simp only [List.drop_succ_cons, List.drop_zero] at hfst
        obtain ⟨g, w, v, htt, hg, hw, hn1, hn2, hn3⟩ := scanGap_sound t d1 d2 d3 hfst
        exact ⟨[], g, w, d1, d2, d3, v, by rw [hrest, htt]; rfl, hg, hw, hn1, hn2, hn3⟩
      · rw [if_neg hs] at hfst
        cases hfst
    | none =>
      rw [hfst] at h
      obtain ⟨u, g, w, e1, e2, e3, v, hrest, hg, hw, hn1, hn2, hn3⟩ := ih d1 d2 d3 h
      exact ⟨c :: u, g, w, e1, e2, e3, v, by rw [hrest]; simp, hg, hw, hn1, hn2, hn3⟩

theorem statusOccur_of_sub {b s : List Char} (h : StatusOccur b)
    (hsub : ∃ x y, s = x ++ b ++ y) : StatusOccur s := by
  obtain ⟨u, g, w, d1, d2, d3, v, hb, hg, hw, hn1, hn2, hn3⟩ := h
  obtain ⟨x, y, rfl⟩ := hsub
  exact ⟨x ++ u, g, w, d1, d2, d3, v ++ y, by rw [hb]; simp, hg, hw, hn1, hn2, hn3⟩

theorem scanGap_complete (g : List Char) (w d1 d2 d3 : Char) (v : List Char)
    (hg : ∀ c ∈ g, c ≠ '\n') (hw : isWs w = true)
    (hn1 : isNd d1 = true) (hn2 : isNd d2 = true) (hn3 : isNd d3 = true) :
    scanGap (g ++ w :: d1 :: d2 :: d3 :: v) ≠ none := by
  induction g with
  | nil =>
    simp only [List.nil_append, scanGap, hw, if_true, sniffDigits, hn1, hn2, hn3]
    simp
  | cons c g' ih =>
    simp only [List.cons_append, scanGap]
    cases hfst : (if isWs c then sniffDigits (g' ++ w :: d1 :: d2 :: d3 :: v) else none) with
    | some u => simp
    | none =>
      rw [if_neg (hg c (by simp))]
      exact ih fun x hx => hg x (by simp [hx])

theorem findCode_of_occur (s : List Char) (h : StatusOccur s) : findCode s ≠ none := by
  obtain ⟨u, g, w, d1, d2, d3, v, rfl, hg, hw, hn1, hn2, hn3⟩ := h
  induction u with
  | nil =>
    show findCode ('H' :: 'T' :: 'T' :: 'P' :: '/' :: (g ++ w :: d1 :: d2 :: d3 :: v)) ≠ none
    simp only [findCode]
    rw [if_pos (by rw [isHttpStart_iff]; exact ⟨_, rfl⟩)]
    simp only [List.drop_succ_cons, List.drop_zero]
    cases hsg : scanGap (g ++ w :: d1 :: d2 :: d3 :: v) with
    | none => exact absurd hsg (scanGap_complete g w d1 d2 d3 v hg hw hn1 hn2 hn3)
    | some u => simp [hsg]
  | cons c u' ih =>
    show findCode (c :: (u' ++ httpLit ++ g ++ w :: d1 :: d2 :: d3 :: v)) ≠ none
    simp only [findCode]
    cases hfst : (if isHttpStart (c :: (u' ++ httpLit ++ g ++ w :: d1 :: d2 :: d3 :: v)) then
        scanGap ((u' ++ httpLit ++ g ++ w :: d1 :: d2 :: d3 :: v).drop 4) else none) with
    | some u => simp
    | none => exact ih

/-- C3: for any input whose decoded text contains no occurrence of the
status-line pattern — `"HTTP/"` followed (through a newline-free gap) by a
whitespace character and a three-digit code — the parser returns
`status_code = 0` and empty `headers`. -/
theorem c3_no_status_line (stdout : List Nat)
    (hno : ¬ StatusOccur (utf8DecodeLossy stdout)) :
    ∃ r, CurlResponse.new stdout = some r ∧ r.status_code = 0 ∧ r.headers = [] := by
  have hall : ∀ b ∈ splitSep (utf8DecodeLossy stdout), findCode b = none := by
    intro b hb
    cases hf : findCode b with
    | none => rfl
    | some t =>
      obtain ⟨d1, d2, d3⟩ := t
      exact absurd
        (statusOccur_of_sub (findCode_sound b d1 d2 d3 hf)
          (splitSep_mem_sub (utf8DecodeLossy stdout) b hb)) hno
  exact ⟨⟨0, [], []⟩,
    scanBlocks_all_none (splitSep (utf8DecodeLossy stdout))
      (splitSep (utf8DecodeLossy stdout)) hall, rfl, rfl⟩

/-- Witness for C3 at the concrete input `"hi"`. -/
theorem c3_no_status_line_wit :
    ∃ r, CurlResponse.new c3Input = some r ∧ r.status_code = 0 ∧ r.headers = [] :=
  c3_no_status_line c3Input fun h =>
    absurd (by decide : findCode (utf8DecodeLossy c3Input) = none)
      (findCode_of_occur (utf8DecodeLossy c3Input) h)

theorem splitInclNL_crlf (l M : List Char) (h : ∀ c ∈ l, c ≠ '\n') :
    splitInclNL (l ++ '\r' :: '\n' :: M) = (l ++ ['\r', '\n']) :: splitInclNL M := by
  induction l with
  | nil =>
    show splitInclNL ('\r' :: '\n' :: M) = ['\r', '\n'] :: splitInclNL M
    have h1 : splitInclNL ('\n' :: M) = ['\n'] :: splitInclNL M := by
      simp [splitInclNL]
    simp [splitInclNL, h1]
  | cons c l' ih =>
    have hc : c ≠ '\n' := h c (by simp)
    simp only [List.cons_append, splitInclNL, List.append_eq]
    rw [if_neg hc, ih fun x hx => h x (by simp [hx])]

theorem splitInclNL_no_nl (l : List Char) (hne : l ≠ []) (h : ∀ c ∈ l, c ≠ '\n') :
    splitInclNL l = [l] := by
  induction l with
  | nil => exact absurd rfl hne
  | cons c l' ih =>
    have hc : c ≠ '\n' := h c (by simp)
    simp only [splitInclNL]
    rw [if_neg hc]
    by_cases hl' : l' = []
    · subst hl'
      rfl
    · rw [ih hl' fun x hx => h x (by simp [hx])]

theorem lineMap_crlf (l : List Char) : lineMap (l ++ ['\r', '\n']) = l := by
  have e1 : l ++ ['\r', '\n'] = (l ++ ['\r']) ++ ['\n'] := by simp
  rw [e1]
  unfold lineMap
  simp [List.getLast?_concat, List.dropLast_concat]

theorem lineMap_of_no_nl (l : List Char) (h : ∀ c ∈ l, c ≠ '\n') : lineMap l = l := by
  unfold lineMap
  cases hl : l.getLast? with
  | none => rfl
  | some c =>
    have hc : c ≠ '\n' := h c (List.mem_of_mem_getLast? hl)
    split
    · next heq => exact absurd (Option.some.inj heq) hc
    · rfl

theorem takeWhile_all_nonempty (ls : List (List Char)) (h : ∀ l ∈ ls, l ≠ []) :
    (ls.takeWhile fun l => !l.isEmpty) = ls := by
  rw [List.takeWhile_eq_self_iff]
  intro x hx
  simpa using h x hx

theorem rustLines_mkBlock (ls : List (List Char)) (h : ∀ l ∈ ls, cleanLine l) :
    rustLines (mkBlock ls) = ls := by
  induction ls with
  | nil => rfl
  | cons l ls' ih =>
    have hl := h l (by simp)
    cases ls' with
    | nil =>
      show rustLines (mkBlock [l]) = [l]
      rw [show mkBlock [l] = l from rfl]
      unfold rustLines
      rw [splitInclNL_no_nl l hl.1 fun c hc => (hl.2 c hc).2]
      simp [lineMap_of_no_nl l fun c hc => (hl.2 c hc).2]
    | cons l2 ls'' =>
      show rustLines (mkBlock (l :: l2 :: ls'')) = l :: l2 :: ls''
      rw [show mkBlock (l :: l2 :: ls'') = l ++ '\r' :: '\n' :: mkBlock (l2 :: ls'') from rfl]
      unfold rustLines
      rw [splitInclNL_crlf l _ fun c hc => (hl.2 c hc).2]
      rw [List.map_cons, lineMap_crlf]
      rw [show (splitInclNL (mkBlock (l2 :: ls''))).map lineMap =
        rustLines (mkBlock (l2 :: ls'')) from rfl]
      rw [ih fun x hx => h x (by simp [hx])]

theorem mkBlock_cons_ex (l : List Char) (ls : List (List Char)) :
    ∃ t, mkBlock (l :: ls) = l ++ t := by
  cases ls with
  | nil => exact ⟨[], by simp [mkBlock]⟩
  | cons l2 ls' => exact ⟨'\r' :: '\n' :: mkBlock (l2 :: ls'), rfl⟩

theorem mkBlock_no_sep (ls : List (List Char)) (h : ∀ l ∈ ls, cleanLine l) :
    hasSepB (mkBlock ls ++ ['\r', '\n']) = false := by
  induction ls with
  | nil => decide
  | cons l ls' ih =>
    have hl := h l (by simp)
    cases ls' with
    | nil =>
      show hasSepB (mkBlock [l] ++ ['\r', '\n']) = false
      rw [show mkBlock [l] = l from rfl]
      rw [hasSepB_append_of_clean l _ fun c hc => (hl.2 c hc).1]
      decide
    | cons l2 ls'' =>
      show hasSepB (mkBlock (l :: l2 :: ls'') ++ ['\r', '\n']) = false
      rw [show mkBlock (l :: l2 :: ls'') = l ++ '\r' :: '\n' :: mkBlock (l2 :: ls'') from rfl]
      rw [List.append_assoc, hasSepB_append_of_clean l _ fun c hc => (hl.2 c hc).1]
      obtain ⟨t, hM⟩ := mkBlock_cons_ex l2 ls''
      have hl2 := h l2 (by simp)
      obtain ⟨c2, l2', he2⟩ : ∃ c2 l2', l2 = c2 :: l2' := by
        cases hx : l2 with
        | nil => exact absurd hx hl2.1
        | cons a b => exact ⟨a, b, rfl⟩
      have hc2 : c2 ≠ '\r' := (hl2.2 c2 (by simp [he2])).1
      have hIH := ih fun x hx => h x (by simp [hx])
      simp only [List.cons_append, hasSepB, List.append_eq]
      rw [hIH]
      have hp1 : sepList.isPrefixOf
          ('\r' :: '\n' :: (mkBlock (l2 :: ls'') ++ ['\r', '\n'])) = false := by
        rw [hM, he2]
        simp [sepList, List.isPrefixOf, Ne.symm hc2]
      have hp2 : sepList.isPrefixOf
          ('\n' :: (mkBlock (l2 :: ls'') ++ ['\r', '\n'])) = false := by
        simp [sepList, List.isPrefixOf]
      simp [hp1, hp2]

theorem scanBlocks_skip (blocks rest : List (List Char)) (block : List Char)
    (d2 d3 : Char) (hm : findCode block = some ('3', d2, d3)) :
    scanBlocks blocks (block :: rest) = scanBlocks blocks rest := by
  simp only [scanBlocks, hm]
  simp

theorem scanBlocks_select (blocks rest : List (List Char)) (block : List Char)
    (d1 d2 d3 : Char) (hm : findCode block = some (d1, d2, d3)) (h3 : d1 ≠ '3')
    (n : Nat) (hp : parseU16 d1 d2 d3 = some n)
    (lastB : List Char) (hl : blocks.getLast? = some lastB) :
    scanBlocks blocks (block :: rest) =
      some ⟨n, headersOfBlock block, trimChars lastB⟩ := by
  simp only [scanBlocks, hm, if_neg h3, hp, hl]

theorem headersOfBlock_mkBlock (sl : List Char) (hs : List (List Char))
    (hcl : ∀ l ∈ sl :: hs, cleanLine l) :
    headersOfBlock (mkBlock (sl :: hs)) = hs.map trimChars := by
  unfold headersOfBlock
  rw [rustLines_mkBlock _ hcl]
  rw [show (sl :: hs).drop 1 = hs from rfl]
  rw [takeWhile_all_nonempty hs fun l hl => (hcl l (by simp [hl])).1]

/-- C5: a single well-formed message — a status line and header lines (each
nonempty, free of CR/LF) joined by CR LF, a blank line, then body text with
no further separator — parses to exactly the matched code, the header lines
in order and trimmed, and the trimmed body. -/
theorem c5_single_message (stdout : List Nat) (sl body : List Char)
    (hs : List (List Char)) (d1 d2 d3 : Char)
    (hdec : utf8DecodeLossy stdout = mkBlock (sl :: hs) ++ sepList ++ body)
    (hcl : ∀ l ∈ sl :: hs, cleanLine l)
    (hbody : hasSepB body = false)
    (hmatch : findCode (mkBlock (sl :: hs)) = some (d1, d2, d3))
    (h3 : d1 ≠ '3')
    (hd1 : isAsciiDigit d1 = true) (hd2 : isAsciiDigit d2 = true)
    (hd3 : isAsciiDigit d3 = true) :
    CurlResponse.new stdout =
      some ⟨100 * digitVal d1 + 10 * digitVal d2 + digitVal d3,
        hs.map trimChars, trimChars body⟩ := by
  unfold CurlResponse.new parseText
  rw [hdec, splitSep_append _ _ (mkBlock_no_sep _ hcl), splitSep_no_sep body hbody]
  rw [scanBlocks_select (mkBlock (sl :: hs) :: [body]) [body] (mkBlock (sl :: hs)) d1 d2 d3
    hmatch h3 _ (parseU16_eq d1 d2 d3 hd1 hd2 hd3) body rfl]
  rw [headersOfBlock_mkBlock sl hs hcl]

/-- Witness for C5: the spec's worked example
`"HTTP/1.1 200 OK\r\nContent-Type: text/html\r\n\r\n<html>Hi</html>"` parses
to status 200, that single header, and body `"<html>Hi</html>"`. -/
theorem c5_single_message_wit :
    CurlResponse.new c5Input =
      some ⟨200, ["Content-Type: text/html".toList], "<html>Hi</html>".toList⟩ :=
  c5_single_message c5Input c5sl c5body [c5hdr] '2' '0' '0' (by decide) (by decide)
    (by decide) (by decide) (by decide) (by decide) (by decide) (by decide)

/-- C4: on a capture made of one redirect (3xx) block, one non-3xx status
block and a final body block, the parser skips the redirect, selects the
second block's code and headers, and takes the body from the final block
(not the body embedded in an earlier block). -/
theorem c4_redirect_then_final (stdout : List Nat) (b1 b2 body : List Char)
    (x y d1 d2 d3 : Char)
    (hdec : utf8DecodeLossy stdout = b1 ++ sepList ++ (b2 ++ sepList ++ body))
    (h1 : hasSepB (b1 ++ ['\r', '\n']) = false)
    (h2 : hasSepB (b2 ++ ['\r', '\n']) = false)
    (hb : hasSepB body = false)
    (hm1 : findCode b1 = some ('3', x, y))
    (hm2 : findCode b2 = some (d1, d2, d3))
    (h3 : d1 ≠ '3')
    (hd1 : isAsciiDigit d1 = true) (hd2 : isAsciiDigit d2 = true)
    (hd3 : isAsciiDigit d3 = true) :
    CurlResponse.new stdout =
      some ⟨100 * digitVal d1 + 10 * digitVal d2 + digitVal d3,
        headersOfBlock b2, trimChars body⟩ := by
  unfold CurlResponse.new parseText
  rw [hdec, splitSep_append b1 _ h1, splitSep_append b2 _ h2, splitSep_no_sep body hb]
  rw [scanBlocks_skip _ _ _ _ _ hm1]
  exact scanBlocks_select (b1 :: b2 :: [body]) [body] b2 d1 d2 d3 hm2 h3 _
    (parseU16_eq d1 d2 d3 hd1 hd2 hd3) body rfl

/-- Witness for C4: a 301 hop followed by a 200 message and the body
`"hello"`; the 200 block's code and headers are selected and the body is the
final block. -/
theorem c4_redirect_then_final_wit :
    CurlResponse.new c4Input =
      some ⟨200, ["Content-Type: text/plain".toList], "hello".toList⟩ :=
  c4_redirect_then_final c4Input c4B1 c4B2 c4Body '0' '1' '2' '0' '0' (by decide)
    (by decide) (by decide) (by decide) (by decide) (by decide) (by decide)
    (by decide) (by decide) (by decide)

/-- C10: when the decoded input contains no CR LF CR LF separator, the whole
text is a single block; if it holds a non-redirect status line, the body is
the trimmed whole block — status line and header lines included. -/
theorem c10_single_block (stdout : List Nat) (d1 d2 d3 : Char)
    (hnosep : hasSepB (utf8DecodeLossy stdout) = false)
    (hm : findCode (utf8DecodeLossy stdout) = some (d1, d2, d3))
    (h3 : d1 ≠ '3')
    (hd1 : isAsciiDigit d1 = true) (hd2 : isAsciiDigit d2 = true)
    (hd3 : isAsciiDigit d3 = true) :
    CurlResponse.new stdout =
      some ⟨100 * digitVal d1 + 10 * digitVal d2 + digitVal d3,
        headersOfBlock (utf8DecodeLossy stdout), trimChars (utf8DecodeLossy stdout)⟩ := by
  unfold CurlResponse.new parseText
  rw [splitSep_no_sep _ hnosep]
  exact scanBlocks_select [utf8DecodeLossy stdout] [] (utf8DecodeLossy stdout) d1 d2 d3 hm h3 _
    (parseU16_eq d1 d2 d3 hd1 hd2 hd3) (utf8DecodeLossy stdout) rfl

/-- Witness for C10: `"HTTP/1.1 200 OK\r\nX: y\r\nhello"` has no separator;
the returned body is the whole (trimmed) input text, status line included. -/
theorem c10_single_block_wit :
    CurlResponse.new c10Input =
      some ⟨200, ["X: y".toList, "hello".toList],
        "HTTP/1.1 200 OK\r\nX: y\r\nhello".toList⟩ :=
  c10_single_block c10Input '2' '0' '0' (by decide) (by decide) (by decide)
    (by decide) (by decide) (by decide)

end CurlWrapper
